import Mathlib

/-!
Verification of the model-GPU compatibility calculation engine
(`calculations.js`): a shallow embedding of the pure calculation
functions over exact rationals, together with proofs of the stated
properties.

JavaScript numbers are modelled as rationals (`ℚ`); `Math.floor` is
`Int.floor` and `Math.round` (round half toward +∞) is `⌊x + 1/2⌋`.
`null`/absent values are modelled with `Option`.
-/

namespace WhatModels

/-- JavaScript `Math.round`: rounds half-way cases toward +∞. -/
def jsRound (q : ℚ) : ℤ := ⌊q + 1/2⌋

/-- Additional memory overhead for inference engine internals (GB). -/
def INFERENCE_OVERHEAD_GB : ℚ := 1.0

/-- Models with less context than this (K tokens) are a tight fit. -/
def TIGHT_FIT_CONTEXT_K : ℚ := 4

/-- Maximum weight-offload ratio considered practical. -/
def MAX_OFFLOAD_RATIO : ℚ := 0.5

/-- A model record: one quantized build of a model, as consumed by the
calculation engine. Fields not read by the engine are omitted. -/
structure Model where
  name : String
  params_b : ℚ
  weight_gb : ℚ
  kv_per_1k_gb : ℚ
  max_context_k : ℚ
  layers : Option ℚ
  mmlu_score : ℚ
  swe_bench_score : Option ℚ
  features : Option (List String)
deriving DecidableEq, Repr

/-- Result of `calcMultiGpuResources`. -/
structure GpuResources where
  vram : ℚ
  bandwidth : Option ℚ
deriving DecidableEq, Repr

/-- `calcMultiGpuResources(vram, bandwidth, quantity)`: VRAM pools
linearly, bandwidth gets a communication-efficiency factor. -/
def calcMultiGpuResources (vram : ℚ) (bandwidth : Option ℚ) :
    Option ℚ → GpuResources
  | none => ⟨vram, bandwidth⟩
  | some q =>
    if q = 1 then ⟨vram, bandwidth⟩
    else
      let totalVram := vram * q
      match bandwidth with
      | none => ⟨totalVram, none⟩
      | some b =>
        let efficiency : ℚ := if q = 2 then 0.85 else if q = 3 then 0.75 else 0.70
        ⟨totalVram, some ((jsRound (b * q * efficiency) : ℤ) : ℚ)⟩

/-- `calcMaxContext(model, userVram)`: max context (K tokens) that fits
in VRAM, capped at the model's `max_context_k`. -/
def calcMaxContext (m : Model) (userVram : ℚ) : ℚ :=
  let availableForKv := userVram - m.weight_gb
  if availableForKv ≤ 0 then 0
  else if m.kv_per_1k_gb ≤ 0 then m.max_context_k
  else min ((⌊availableForKv / m.kv_per_1k_gb⌋ : ℤ) : ℚ) m.max_context_k

/-- `calcTokPerSec(model, bandwidth)`: decode tokens/sec estimate, or
`none` when bandwidth is unknown. -/
def calcTokPerSec (m : Model) : Option ℚ → Option ℚ
  | none => none
  | some b => some ((jsRound (b / (m.weight_gb + INFERENCE_OVERHEAD_GB)) : ℤ) : ℚ)

/-- Result of `calcMaxContextWithOffload`. -/
structure CtxResult where
  maxCtxK : ℚ
  vramCtxK : ℚ
  ramCtxK : ℚ
  usingSystemRam : Bool
deriving DecidableEq, Repr

/-- `calcMaxContextWithOffload(model, vram, systemRamGB)`: max context
when system RAM may extend the KV cache; identical to `calcMaxContext`
when `systemRamGB` is `none`. -/
def calcMaxContextWithOffload (m : Model) (vram : ℚ) (systemRamGB : Option ℚ) :
    CtxResult :=
  let availableForKv := vram - m.weight_gb
  if availableForKv ≤ 0 then ⟨0, 0, 0, false⟩
  else if m.kv_per_1k_gb ≤ 0 then ⟨m.max_context_k, m.max_context_k, 0, false⟩
  else
    let vramCtxK : ℚ := ((⌊availableForKv / m.kv_per_1k_gb⌋ : ℤ) : ℚ)
    match systemRamGB with
    | none =>
      let capped := min vramCtxK m.max_context_k
      ⟨capped, capped, 0, false⟩
    | some ram =>
      let ramCtxK : ℚ := ((⌊ram / m.kv_per_1k_gb⌋ : ℤ) : ℚ)
      let totalCtxK := min (vramCtxK + ramCtxK) m.max_context_k
      let actualRamCtxK := totalCtxK - min vramCtxK totalCtxK
      ⟨totalCtxK, min vramCtxK totalCtxK, actualRamCtxK, decide (actualRamCtxK > 0)⟩

/-- Result of `calcOffloadConfig`: either infeasible, or a feasible
split of the weights between GPU and system RAM. -/
inductive OffloadConfig where
  | infeasible : OffloadConfig
  | feasible (gpuWeightGB ramWeightGB offloadRatio estimatedLayers : ℚ) : OffloadConfig
deriving DecidableEq, Repr

/-- `calcOffloadConfig(model, vram, systemRamGB)`: how much of the
weights must move to system RAM when the model does not fit in VRAM. -/
def calcOffloadConfig (m : Model) (vram : ℚ) (systemRamGB : Option ℚ) :
    OffloadConfig :=
  let reserveForKV := INFERENCE_OVERHEAD_GB
  let availableForWeights := vram - reserveForKV
  if m.weight_gb ≤ availableForWeights then
    .feasible m.weight_gb 0 0 0
  else
    match systemRamGB with
    | none => .infeasible
    | some ram =>
      let ramWeightGB := m.weight_gb - max availableForWeights 0
      let offloadRatio := ramWeightGB / m.weight_gb
      if offloadRatio > MAX_OFFLOAD_RATIO ∨ ramWeightGB > ram then .infeasible
      else
        .feasible (max availableForWeights 0) ramWeightGB offloadRatio
          ((jsRound (offloadRatio * (m.layers.getD 0)) : ℤ) : ℚ)

/-- Result of `calcOffloadPenalty`. -/
structure Penalty where
  penaltyPercent : ℤ
  speedMultiplier : ℚ
deriving DecidableEq, Repr

/-- `calcOffloadPenalty(offloadRatio, bandwidth)`: performance penalty
from weight offloading. -/
def calcOffloadPenalty (offloadRatio : ℚ) (bandwidth : Option ℚ) : Penalty :=
  if offloadRatio ≤ 0 then ⟨0, 1⟩
  else
    let penalty0 : ℚ := 0.15 + offloadRatio * 0.70
    let penalty1 : ℚ :=
      match bandwidth with
      | none => penalty0
      | some b => if b < 400 then penalty0 * 0.80
                  else if b < 700 then penalty0 * 0.90
                  else penalty0
    let penalty := min penalty1 0.50
    ⟨jsRound (penalty * 100), 1 - penalty⟩

/-- Quality tier label and style class. -/
structure Tier where
  label : String
  cls : String
deriving DecidableEq, Repr

/-- `qualityTier(score)`: tier from MMLU score. -/
def qualityTier (score : ℚ) : Tier :=
  if score ≥ 83 then ⟨"Excellent", "tier-excellent"⟩
  else if score ≥ 75 then ⟨"Great", "tier-great"⟩
  else if score ≥ 67 then ⟨"Good", "tier-good"⟩
  else if score ≥ 55 then ⟨"Fair", "tier-fair"⟩
  else ⟨"Basic", "tier-basic"⟩

/-- `codingQualityTier(score)`: tier from SWE-bench score. -/
def codingQualityTier : Option ℚ → Tier
  | none => ⟨"N/A", "tier-na"⟩
  | some score =>
    if score ≥ 30 then ⟨"Excellent", "tier-excellent"⟩
    else if score ≥ 22 then ⟨"Great", "tier-great"⟩
    else if score ≥ 15 then ⟨"Good", "tier-good"⟩
    else if score ≥ 8 then ⟨"Fair", "tier-fair"⟩
    else ⟨"Basic", "tier-basic"⟩

end WhatModels

namespace WhatModels

/-- The medium test model from the spec's scenarios
(`weight_gb: 8.99, kv_per_1k_gb: 0.25, max_context_k: 128`). -/
def mediumModel : Model :=
  { name := "Test Medium", params_b := 14, weight_gb := 8.99,
    kv_per_1k_gb := 0.25, max_context_k := 128, layers := none,
    mmlu_score := 79.9, swe_bench_score := none, features := none }

end WhatModels

open WhatModels

/-- C1: for every model with `weight_gb > 0`, `max_context_k > 0` and
`kv_per_1k_gb ≥ 0`, and every vram: `calcMaxContext` returns 0 when
`vram - weight_gb ≤ 0`; returns `max_context_k` when `vram - weight_gb > 0`
and `kv_per_1k_gb ≤ 0`; otherwise `min(floor((vram - weight_gb)/kv), max)`;
the result is always ≤ `max_context_k`; and the medium model at vram 24
yields 60. -/
theorem calcMaxContext_spec (m : Model) (v : ℚ)
    (hw : 0 < m.weight_gb) (hc : 0 < m.max_context_k)
    (hk : 0 ≤ m.kv_per_1k_gb) :
    (v - m.weight_gb ≤ 0 → calcMaxContext m v = 0) ∧
    (0 < v - m.weight_gb → m.kv_per_1k_gb ≤ 0 →
      calcMaxContext m v = m.max_context_k) ∧
    (0 < v - m.weight_gb → 0 < m.kv_per_1k_gb →
      calcMaxContext m v =
        min ((⌊(v - m.weight_gb) / m.kv_per_1k_gb⌋ : ℤ) : ℚ) m.max_context_k) ∧
    calcMaxContext m v ≤ m.max_context_k ∧
    calcMaxContext mediumModel 24 = 60 := by
  refine ⟨?_, ?_, ?_, ?_, ?_⟩
  · intro h; simp only [calcMaxContext, if_pos h]
  · intro h hk0
    simp only [calcMaxContext, if_neg (not_le.mpr h), if_pos hk0]
  · intro h hkpos
    simp only [calcMaxContext, if_neg (not_le.mpr h), if_neg (not_le.mpr hkpos)]
  · simp only [calcMaxContext]
    split_ifs
    · linarith
    · exact le_refl _
    · exact min_le_right _ _
  · norm_num [calcMaxContext, mediumModel]

/-- Witness for `calcMaxContext_spec` at the medium model and vram 24. -/
theorem calcMaxContext_spec_witness :
    calcMaxContext mediumModel 24 = 60 ∧ calcMaxContext mediumModel 24 ≤ 128 :=
  ⟨(calcMaxContext_spec mediumModel 24 (by norm_num [mediumModel]) (by norm_num [mediumModel])
      (by norm_num [mediumModel])).2.2.2.2,
   (calcMaxContext_spec mediumModel 24 (by norm_num [mediumModel]) (by norm_num [mediumModel])
      (by norm_num [mediumModel])).2.2.2.1⟩

/-- C2: for every model and vram, `calcMaxContextWithOffload` with
`systemRamGB = none` returns `maxCtxK` equal to `calcMaxContext`, with
`ramCtxK = 0` and `usingSystemRam = false`; and the medium model at
vram 12 yields context 12. -/
theorem calcMaxContextWithOffload_none_spec (m : Model) (v : ℚ) :
    (calcMaxContextWithOffload m v none).maxCtxK = calcMaxContext m v ∧
    (calcMaxContextWithOffload m v none).ramCtxK = 0 ∧
    (calcMaxContextWithOffload m v none).usingSystemRam = false ∧
    (calcMaxContextWithOffload mediumModel 12 none).maxCtxK = 12 := by
  refine ⟨?_, ?_, ?_, by norm_num [calcMaxContextWithOffload, mediumModel]⟩
  · simp only [calcMaxContextWithOffload, calcMaxContext]
    split_ifs <;> rfl
  · simp only [calcMaxContextWithOffload]
    split_ifs <;> rfl
  · simp only [calcMaxContextWithOffload]
    split_ifs <;> rfl

/-- C3: for per-unit vram `v`, bandwidth `b` and a unit count `n` in
[1,8]: pooled VRAM is exactly `v * n` (with `{v, b}` returned unchanged
at `n = 1` or count `none`); pooled bandwidth stays unknown when `b` is
unknown and otherwise is `round(b * n * e)` with `e = 0.85, 0.75, 0.70`
for `n = 2`, `n = 3`, `n ≥ 4`; and `calcMultiGpuResources 24 1008 3 =
{vram := 72, bandwidth := 2268}`. -/
theorem calcMultiGpuResources_spec (v : ℚ) (b : Option ℚ) (n : ℕ)
    (h1 : 1 ≤ n) (h8 : n ≤ 8) :
    (calcMultiGpuResources v b (some (n : ℚ))).vram = v * n ∧
    (calcMultiGpuResources v b none = ⟨v, b⟩) ∧
    (calcMultiGpuResources v b (some 1) = ⟨v, b⟩) ∧
    (b = none → (calcMultiGpuResources v b (some (n : ℚ))).bandwidth = none) ∧
    (∀ x : ℚ, b = some x → 2 ≤ n →
      (calcMultiGpuResources v b (some (n : ℚ))).bandwidth =
        some ((jsRound (x * n *
          (if n = 2 then 0.85 else if n = 3 then 0.75 else 0.70)) : ℤ) : ℚ)) ∧
    calcMultiGpuResources 24 (some 1008) (some 3) = ⟨72, some 2268⟩ := by
  refine ⟨?_, rfl, by simp [calcMultiGpuResources], ?_, ?_,
    by norm_num [calcMultiGpuResources, jsRound]⟩
  · by_cases hn1 : (n : ℚ) = 1
    · simp [calcMultiGpuResources, hn1]
    · cases b <;> simp [calcMultiGpuResources, hn1]
  · intro hb
    subst hb
    by_cases hn1 : (n : ℚ) = 1
    · have : n = 1 := by exact_mod_cast hn1
      simp [calcMultiGpuResources, hn1, this]
    · simp [calcMultiGpuResources, hn1]
  · intro x hb hn2
    subst hb
    have hn1 : (n : ℚ) ≠ 1 := by
      intro h
      have : n = 1 := by exact_mod_cast h
      omega
    simp only [calcMultiGpuResources, if_neg hn1]
    have e2 : ((n : ℚ) = 2) ↔ (n = 2) := by exact_mod_cast Iff.rfl
    have e3 : ((n : ℚ) = 3) ↔ (n = 3) := by exact_mod_cast Iff.rfl
    by_cases h2 : n = 2
    · simp [h2]
    · by_cases h3 : n = 3
      · simp [h3, e2, h2]
      · simp [e2, e3, h2, h3]

/-- Witness for `calcMultiGpuResources_spec` at `v = 24, b = 1008, n = 3`. -/
theorem calcMultiGpuResources_spec_witness :
    calcMultiGpuResources 24 (some 1008) (some 3) = ⟨72, some 2268⟩ :=
  (calcMultiGpuResources_spec 24 (some 1008) 3 (by norm_num) (by norm_num)).2.2.2.2.2

/-- C7: for every model with `weight_gb > 0`, `calcTokPerSec` returns
`none` exactly when the bandwidth is `none`, and otherwise
`round(bandwidth / (weight_gb + 1.0))`; bandwidth 504 at weight 8.99
yields 50. -/
theorem calcTokPerSec_spec (m : Model) (b : Option ℚ) (hw : 0 < m.weight_gb) :
    (calcTokPerSec m b = none ↔ b = none) ∧
    (∀ x : ℚ, b = some x →
      calcTokPerSec m b = some ((jsRound (x / (m.weight_gb + 1)) : ℤ) : ℚ)) ∧
    calcTokPerSec mediumModel (some 504) = some 50 := by
  refine ⟨?_, ?_, by norm_num [calcTokPerSec, mediumModel, jsRound, INFERENCE_OVERHEAD_GB]⟩
  · cases b <;> simp [calcTokPerSec]
  · intro x hb
    subst hb
    simp only [calcTokPerSec, INFERENCE_OVERHEAD_GB]
    norm_num

/-- Witness for `calcTokPerSec_spec` at the medium model, bandwidth 504. -/
theorem calcTokPerSec_spec_witness :
    calcTokPerSec mediumModel (some 504) = some 50 :=
  (calcTokPerSec_spec mediumModel (some 504) (by norm_num [mediumModel])).2.2

/-- `jsRound` is monotone. -/
theorem jsRound_mono {x y : ℚ} (h : x ≤ y) : jsRound x ≤ jsRound y :=
  Int.floor_le_floor (by linarith)

/-- `jsRound` of a nonnegative number is nonnegative. -/
theorem jsRound_nonneg {x : ℚ} (h : 0 ≤ x) : 0 ≤ jsRound x :=
  Int.le_floor.mpr (by push_cast; linarith)

/-- `jsRound` of a number at most 50 is at most 50. -/
theorem jsRound_le_fifty {x : ℚ} (h : x ≤ 50) : jsRound x ≤ 50 := by
  have h1 : jsRound x ≤ jsRound 50 := jsRound_mono h
  have h2 : jsRound 50 = 50 := by norm_num [jsRound]
  omega

/-- C4: for every bandwidth (known or unknown), `calcOffloadPenalty` is
monotonically non-decreasing in the offload ratio over [0, 1/2]; for
every ratio the penalty never exceeds 50 percent and the speed
multiplier is at least 1/2; and at ratio 0 the penalty is 0 with speed
multiplier 1. -/
theorem calcOffloadPenalty_spec (b : Option ℚ) (r1 r2 : ℚ)
    (h0 : 0 ≤ r1) (h12 : r1 ≤ r2) (h2 : r2 ≤ 1/2) :
    (calcOffloadPenalty r1 b).penaltyPercent ≤
      (calcOffloadPenalty r2 b).penaltyPercent ∧
    (∀ r : ℚ, (calcOffloadPenalty r b).penaltyPercent ≤ 50 ∧
      1/2 ≤ (calcOffloadPenalty r b).speedMultiplier) ∧
    calcOffloadPenalty 0 b = ⟨0, 1⟩ := by
  refine ⟨?_, ?_, by simp [calcOffloadPenalty]⟩
  · by_cases hr1 : r1 ≤ 0
    · rw [show calcOffloadPenalty r1 b = ⟨0, 1⟩ from by simp [calcOffloadPenalty, hr1]]
      by_cases hr2 : r2 ≤ 0
      · simp [calcOffloadPenalty, hr2]
      · rcases b with _ | bv
        · simp only [calcOffloadPenalty, if_neg hr2]
          exact jsRound_nonneg (by
            have hm : (0:ℚ) ≤ min (0.15 + r2 * 0.70) 0.50 :=
              le_min (by linarith) (by norm_num)
            linarith)
        · simp only [calcOffloadPenalty, if_neg hr2]
          split_ifs
          · exact jsRound_nonneg (by
              have hm : (0:ℚ) ≤ min ((0.15 + r2 * 0.70) * 0.80) 0.50 :=
                le_min (by nlinarith) (by norm_num)
              linarith)
          · exact jsRound_nonneg (by
              have hm : (0:ℚ) ≤ min ((0.15 + r2 * 0.70) * 0.90) 0.50 :=
                le_min (by nlinarith) (by norm_num)
              linarith)
          · exact jsRound_nonneg (by
              have hm : (0:ℚ) ≤ min (0.15 + r2 * 0.70) 0.50 :=
                le_min (by nlinarith) (by norm_num)
              linarith)
    · have hr2 : ¬ r2 ≤ 0 := by linarith
      rcases b with _ | bv
      · simp only [calcOffloadPenalty, if_neg hr1, if_neg hr2]
        apply jsRound_mono
        have hm : min (0.15 + r1 * 0.70) (0.50:ℚ) ≤ min (0.15 + r2 * 0.70) 0.50 :=
          min_le_min (by linarith) le_rfl
        linarith
      · simp only [calcOffloadPenalty, if_neg hr1, if_neg hr2]
        split_ifs
        · apply jsRound_mono
          have hm : min ((0.15 + r1 * 0.70) * 0.80) (0.50:ℚ) ≤
              min ((0.15 + r2 * 0.70) * 0.80) 0.50 :=
            min_le_min (by linarith) le_rfl
          linarith
        · apply jsRound_mono
          have hm : min ((0.15 + r1 * 0.70) * 0.90) (0.50:ℚ) ≤
              min ((0.15 + r2 * 0.70) * 0.90) 0.50 :=
            min_le_min (by linarith) le_rfl
          linarith
        · apply jsRound_mono
          have hm : min (0.15 + r1 * 0.70) (0.50:ℚ) ≤ min (0.15 + r2 * 0.70) 0.50 :=
            min_le_min (by linarith) le_rfl
          linarith
  · intro r
    by_cases hr : r ≤ 0
    · simp only [calcOffloadPenalty, if_pos hr]
      norm_num
    · rcases b with _ | bv
      · simp only [calcOffloadPenalty, if_neg hr]
        have hm : min (0.15 + r * 0.70) (0.50:ℚ) ≤ 0.50 := min_le_right _ _
        exact ⟨jsRound_le_fifty (by linarith), by linarith⟩
      · simp only [calcOffloadPenalty, if_neg hr]
        split_ifs
        · have hm : min ((0.15 + r * 0.70) * 0.80) (0.50:ℚ) ≤ 0.50 := min_le_right _ _
          exact ⟨jsRound_le_fifty (by linarith), by linarith⟩
        · have hm : min ((0.15 + r * 0.70) * 0.90) (0.50:ℚ) ≤ 0.50 := min_le_right _ _
          exact ⟨jsRound_le_fifty (by linarith), by linarith⟩
        · have hm : min (0.15 + r * 0.70) (0.50:ℚ) ≤ 0.50 := min_le_right _ _
          exact ⟨jsRound_le_fifty (by linarith), by linarith⟩

/-- Witness for `calcOffloadPenalty_spec` at bandwidth 500 and ratios
0.1 ≤ 0.2. -/
theorem calcOffloadPenalty_spec_witness :
    (0:ℚ) ≤ 0.1 ∧ (0.1:ℚ) ≤ 0.2 ∧ (0.2:ℚ) ≤ 1/2 ∧
    (calcOffloadPenalty 0.1 (some 500)).penaltyPercent ≤
      (calcOffloadPenalty 0.2 (some 500)).penaltyPercent :=
  ⟨by norm_num, by norm_num, by norm_num,
   (calcOffloadPenalty_spec (some 500) 0.1 0.2 (by norm_num) (by norm_num)
     (by norm_num)).1⟩

namespace WhatModels

/-- The offload-plan record that `bucketModels` attaches to an entry. -/
structure OffloadInfo where
  gpuWeightGB : ℚ
  ramWeightGB : ℚ
  offloadRatio : ℚ
  estimatedLayers : ℚ
  penaltyPercent : ℤ
  speedMultiplier : ℚ
deriving DecidableEq, Repr

/-- The context-extension breakdown that `bucketModels` attaches. -/
structure CtxInfo where
  vramCtxK : ℚ
  ramCtxK : ℚ
deriving DecidableEq, Repr

/-- An enriched entry: a model record augmented with the fields that
`bucketModels` computes (the JS spread `{ ...m, maxCtxK, ... }`). -/
structure Entry where
  model : Model
  maxCtxK : ℚ
  fitsAtAll : Bool
  meetsMinCtx : Bool
  meetsMinSpeed : Bool
  meetsFeatures : Bool
  modelSupportsCtx : Bool
  tokPerSec : Option ℚ
  tier : Tier
  offloadInfo : Option OffloadInfo
  ctxInfo : Option CtxInfo
deriving DecidableEq, Repr

/-- The `offloadInfo` block of `bucketModels`'s map body: try weight
offloading when the model does not fit in VRAM. -/
def computeOffloadInfo (m : Model) (vram : ℚ)
    (bandwidth systemRamGB : Option ℚ) (fitsInVram : Bool) :
    Option OffloadInfo :=
  if !fitsInVram && systemRamGB.isSome then
    match calcOffloadConfig m vram systemRamGB with
    | .infeasible => none
    | .feasible g r ratio lay =>
      if 0 < ratio then
        let penalty := calcOffloadPenalty ratio bandwidth
        some ⟨g, r, ratio, lay, penalty.penaltyPercent, penalty.speedMultiplier⟩
      else none
  else none

/-- The context block of `bucketModels`'s map body: compute `maxCtxK`
and the optional context-extension breakdown. -/
def computeCtx (m : Model) (vram : ℚ) (systemRamGB : Option ℚ)
    (weightsAvailable : Bool) (offloadInfo : Option OffloadInfo) :
    ℚ × Option CtxInfo :=
  if weightsAvailable && offloadInfo.isNone && systemRamGB.isSome then
    let extended := calcMaxContextWithOffload m vram systemRamGB
    (extended.maxCtxK,
      if extended.usingSystemRam then some ⟨extended.vramCtxK, extended.ramCtxK⟩
      else none)
  else
    match offloadInfo with
    | some oi =>
      let vramForKv := max (vram - oi.gpuWeightGB - INFERENCE_OVERHEAD_GB) 0
      (if 0 < m.kv_per_1k_gb then
          min ((⌊vramForKv / m.kv_per_1k_gb⌋ : ℤ) : ℚ) m.max_context_k
        else m.max_context_k, none)
    | none => (calcMaxContext m vram, none)

/-- The per-model body of `bucketModels`'s `allModels.map((m) => ...)`:
computes the enriched entry for one model. -/
def enrichModel (vram : ℚ) (bandwidth : Option ℚ)
    (minContextK minTokPerSec : Option ℚ) (requiredFeatures : List String)
    (sortBy : String) (systemRamGB : Option ℚ) (m : Model) : Entry :=
  let effectiveMinCtx := minContextK
  let totalAtMinCtx := m.weight_gb + m.kv_per_1k_gb
  let fitsInVram : Bool := decide (vram ≥ totalAtMinCtx)
  let offloadInfo : Option OffloadInfo :=
    computeOffloadInfo m vram bandwidth systemRamGB fitsInVram
  let weightsAvailable : Bool := fitsInVram || offloadInfo.isSome
  let ctxPair : ℚ × Option CtxInfo :=
    computeCtx m vram systemRamGB weightsAvailable offloadInfo
  let maxCtxK := ctxPair.1
  let ctxInfo := ctxPair.2
  let modelSupportsCtx : Bool :=
    match effectiveMinCtx with
    | none => true
    | some c => decide (m.max_context_k ≥ c)
  let meetsMinCtx : Bool :=
    match effectiveMinCtx with
    | none => true
    | some c => decide (maxCtxK ≥ c)
  let tokPerSec0 := calcTokPerSec m bandwidth
  let tokPerSec : Option ℚ :=
    match tokPerSec0, offloadInfo with
    | some t, some oi => some ((jsRound (t * oi.speedMultiplier) : ℤ) : ℚ)
    | t, _ => t
  let meetsMinSpeed : Bool :=
    match minTokPerSec, tokPerSec with
    | some minT, some t => decide (t ≥ minT)
    | _, _ => true
  let meetsFeatures : Bool :=
    if 0 < requiredFeatures.length then
      requiredFeatures.all (fun f => (m.features.getD []).contains f)
    else true
  let tier := if sortBy = "swe-bench" then codingQualityTier m.swe_bench_score
              else qualityTier m.mmlu_score
  { model := m, maxCtxK := maxCtxK, fitsAtAll := weightsAvailable,
    meetsMinCtx := meetsMinCtx, meetsMinSpeed := meetsMinSpeed,
    meetsFeatures := meetsFeatures, modelSupportsCtx := modelSupportsCtx,
    tokPerSec := tokPerSec, tier := tier, offloadInfo := offloadInfo,
    ctxInfo := ctxInfo }

/-- The classification loop of `bucketModels`: distributes the entries,
in order, into the (fits, tight, noFit) triple. -/
def splitBuckets : List Entry → List Entry × List Entry × List Entry
  | [] => ([], [], [])
  | e :: rest =>
    let s := splitBuckets rest
    if !e.fitsAtAll || !e.modelSupportsCtx then (s.1, s.2.1, e :: s.2.2)
    else if e.offloadInfo.isSome then (s.1, e :: s.2.1, s.2.2)
    else if !e.meetsMinCtx || !e.meetsMinSpeed || !e.meetsFeatures then
      (s.1, e :: s.2.1, s.2.2)
    else if e.maxCtxK < TIGHT_FIT_CONTEXT_K then (s.1, e :: s.2.1, s.2.2)
    else (e :: s.1, s.2.1, s.2.2)

/-- `compareScores(a, b)`: descending comparison with nulls last. -/
def compareScores : Option ℚ → Option ℚ → ℚ
  | none, none => 0
  | none, some _ => 1
  | some _, none => -1
  | some a, some b => b - a

/-- The SWE-bench sort comparator for `fits`/`tight` (`a` before `b`
when the comparator value is ≤ 0, matching a stable JS sort). -/
def sweSortCmp (a b : Entry) : ℚ :=
  let c := compareScores a.model.swe_bench_score b.model.swe_bench_score
  if c ≠ 0 then c else b.maxCtxK - a.maxCtxK

/-- The SWE-bench sort comparator for `noFit`. -/
def sweNoFitCmp (a b : Entry) : ℚ :=
  let c := compareScores a.model.swe_bench_score b.model.swe_bench_score
  if c ≠ 0 then c else b.model.weight_gb - a.model.weight_gb

/-- The MMLU sort comparator for `fits`/`tight`. -/
def mmluSortCmp (a b : Entry) : ℚ :=
  let c := b.model.mmlu_score - a.model.mmlu_score
  if c ≠ 0 then c else b.maxCtxK - a.maxCtxK

/-- The MMLU sort comparator for `noFit`. -/
def mmluNoFitCmp (a b : Entry) : ℚ :=
  let c := b.model.mmlu_score - a.model.mmlu_score
  if c ≠ 0 then c else b.model.weight_gb - a.model.weight_gb

/-- Turn a JS comparator into the ordering test used by a stable sort. -/
def cmpLE (cmp : Entry → Entry → ℚ) (a b : Entry) : Bool := decide (cmp a b ≤ 0)

/-- The three output buckets of `bucketModels`. -/
structure Buckets where
  fits : List Entry
  tight : List Entry
  noFit : List Entry
deriving DecidableEq, Repr

/-- `bucketModels(allModels, vram, bandwidth, minContextK, minTokPerSec,
requiredFeatures, sortBy, systemRamGB)`: enrich every model, split into
buckets, and sort each bucket. -/
def bucketModels (allModels : List Model) (vram : ℚ) (bandwidth : Option ℚ)
    (minContextK minTokPerSec : Option ℚ) (requiredFeatures : List String)
    (sortBy : String) (systemRamGB : Option ℚ) : Buckets :=
  let entries := allModels.map
    (enrichModel vram bandwidth minContextK minTokPerSec requiredFeatures sortBy
      systemRamGB)
  let s := splitBuckets entries
  if sortBy = "swe-bench" then
    ⟨s.1.mergeSort (cmpLE sweSortCmp), s.2.1.mergeSort (cmpLE sweSortCmp),
     s.2.2.mergeSort (cmpLE sweNoFitCmp)⟩
  else
    ⟨s.1.mergeSort (cmpLE mmluSortCmp), s.2.1.mergeSort (cmpLE mmluSortCmp),
     s.2.2.mergeSort (cmpLE mmluNoFitCmp)⟩

/-- A grouped entry produced by `groupVariants`. -/
structure Group where
  name : String
  params_b : ℚ
  tier : Tier
  mmlu_score : ℚ
  swe_bench_score : Option ℚ
  features : List String
  variants : List Entry
deriving DecidableEq, Repr

/-- The group created for the first-seen variant `m` of a name. -/
def newGroup (m : Entry) : Group :=
  { name := m.model.name, params_b := m.model.params_b, tier := m.tier,
    mmlu_score := m.model.mmlu_score,
    swe_bench_score := m.model.swe_bench_score,
    features := m.model.features.getD [], variants := [m] }

/-- One step of `groupVariants`'s loop: push `m` onto its existing
group (the `seen` map hit) or append a fresh group. -/
def pushVariant (groups : List Group) (m : Entry) : List Group :=
  if groups.any (fun g => g.name = m.model.name) then
    groups.map (fun g =>
      if g.name = m.model.name then { g with variants := g.variants ++ [m] }
      else g)
  else groups ++ [newGroup m]

/-- The ascending-weight ordering used on each group's variants. -/
def weightLE (a b : Entry) : Bool := decide (a.model.weight_gb ≤ b.model.weight_gb)

/-- `groupVariants(models)`: group enriched entries by model name in
first-appearance order, then sort each group's variants by weight. -/
def groupVariants (models : List Entry) : List Group :=
  let groups := models.foldl pushVariant []
  groups.map (fun g => { g with variants := g.variants.mergeSort weightLE })

end WhatModels

namespace WhatModels

/-- The condition sending an entry to `noFit`. -/
def noFitCond (e : Entry) : Bool := !e.fitsAtAll || !e.modelSupportsCtx

/-- The condition (given `noFitCond` fails) sending an entry to `tight`. -/
def tightCond (e : Entry) : Bool :=
  e.offloadInfo.isSome || !e.meetsMinCtx || !e.meetsMinSpeed || !e.meetsFeatures
    || decide (e.maxCtxK < TIGHT_FIT_CONTEXT_K)

/-- `splitBuckets` computes the three filters of its classification
conditions. -/
theorem splitBuckets_eq (l : List Entry) :
    splitBuckets l =
      (l.filter (fun e => !noFitCond e && !tightCond e),
       l.filter (fun e => !noFitCond e && tightCond e),
       l.filter (fun e => noFitCond e)) := by
  induction l with
  | nil => rfl
  | cons e rest ih =>
    simp only [splitBuckets, ih, List.filter_cons]
    by_cases h1 : e.fitsAtAll = true <;> by_cases h2 : e.modelSupportsCtx = true <;>
      by_cases h3 : e.offloadInfo.isSome = true <;>
      by_cases h4 : e.meetsMinCtx = true <;> by_cases h5 : e.meetsMinSpeed = true <;>
      by_cases h6 : e.meetsFeatures = true <;>
      by_cases h7 : e.maxCtxK < TIGHT_FIT_CONTEXT_K <;>
      simp [noFitCond, tightCond, h1, h2, h3, h4, h5, h6, h7]

/-- `splitBuckets` is a permutation of its input. -/
theorem splitBuckets_perm (l : List Entry) :
    ((splitBuckets l).1 ++ (splitBuckets l).2.1 ++ (splitBuckets l).2.2).Perm l := by
  induction l with
  | nil => simp [splitBuckets]
  | cons e rest ih =>
    simp only [splitBuckets]
    split_ifs <;> dsimp only
    · exact List.perm_middle.trans (ih.cons e)
    · exact (List.perm_middle.append_right _).trans (ih.cons e)
    · exact (List.perm_middle.append_right _).trans (ih.cons e)
    · exact (List.perm_middle.append_right _).trans (ih.cons e)
    · exact ih.cons e

end WhatModels

namespace WhatModels

/-- Membership in the `noFit` bucket of `bucketModels`. -/
theorem mem_bucketModels_noFit {allModels : List Model} {vram : ℚ}
    {bandwidth minContextK minTokPerSec : Option ℚ}
    {requiredFeatures : List String} {sortBy : String} {systemRamGB : Option ℚ}
    {x : Entry} :
    x ∈ (bucketModels allModels vram bandwidth minContextK minTokPerSec
        requiredFeatures sortBy systemRamGB).noFit ↔
      x ∈ allModels.map (enrichModel vram bandwidth minContextK minTokPerSec
        requiredFeatures sortBy systemRamGB) ∧ noFitCond x = true := by
  simp only [bucketModels]
  split_ifs <;>
    simp [List.mem_mergeSort, splitBuckets_eq, List.mem_filter]

/-- Membership in the `fits` bucket of `bucketModels`. -/
theorem mem_bucketModels_fits {allModels : List Model} {vram : ℚ}
    {bandwidth minContextK minTokPerSec : Option ℚ}
    {requiredFeatures : List String} {sortBy : String} {systemRamGB : Option ℚ}
    {x : Entry} :
    x ∈ (bucketModels allModels vram bandwidth minContextK minTokPerSec
        requiredFeatures sortBy systemRamGB).fits ↔
      x ∈ allModels.map (enrichModel vram bandwidth minContextK minTokPerSec
        requiredFeatures sortBy systemRamGB) ∧
        noFitCond x = false ∧ tightCond x = false := by
  simp only [bucketModels]
  split_ifs <;>
    simp [List.mem_mergeSort, splitBuckets_eq, List.mem_filter, and_assoc]

/-- Membership in the `tight` bucket of `bucketModels`. -/
theorem mem_bucketModels_tight {allModels : List Model} {vram : ℚ}
    {bandwidth minContextK minTokPerSec : Option ℚ}
    {requiredFeatures : List String} {sortBy : String} {systemRamGB : Option ℚ}
    {x : Entry} :
    x ∈ (bucketModels allModels vram bandwidth minContextK minTokPerSec
        requiredFeatures sortBy systemRamGB).tight ↔
      x ∈ allModels.map (enrichModel vram bandwidth minContextK minTokPerSec
        requiredFeatures sortBy systemRamGB) ∧
        noFitCond x = false ∧ tightCond x = true := by
  simp only [bucketModels]
  split_ifs <;>
    simp [List.mem_mergeSort, splitBuckets_eq, List.mem_filter, and_assoc]

end WhatModels

/-- C10: `bucketModels` partitions its input: the three buckets together
are a permutation of the enriched catalog, so every model gives rise to
exactly one enriched entry in exactly one bucket, and the bucket sizes
sum to the catalog length. -/
theorem bucketModels_partition (allModels : List Model) (vram : ℚ)
    (bandwidth minContextK minTokPerSec : Option ℚ)
    (requiredFeatures : List String) (sortBy : String)
    (systemRamGB : Option ℚ) :
    ((bucketModels allModels vram bandwidth minContextK minTokPerSec
        requiredFeatures sortBy systemRamGB).fits ++
     (bucketModels allModels vram bandwidth minContextK minTokPerSec
        requiredFeatures sortBy systemRamGB).tight ++
     (bucketModels allModels vram bandwidth minContextK minTokPerSec
        requiredFeatures sortBy systemRamGB).noFit).Perm
      (allModels.map (enrichModel vram bandwidth minContextK minTokPerSec
        requiredFeatures sortBy systemRamGB)) ∧
    (bucketModels allModels vram bandwidth minContextK minTokPerSec
        requiredFeatures sortBy systemRamGB).fits.length +
      (bucketModels allModels vram bandwidth minContextK minTokPerSec
        requiredFeatures sortBy systemRamGB).tight.length +
      (bucketModels allModels vram bandwidth minContextK minTokPerSec
        requiredFeatures sortBy systemRamGB).noFit.length =
      allModels.length := by
  have hperm : ((bucketModels allModels vram bandwidth minContextK minTokPerSec
        requiredFeatures sortBy systemRamGB).fits ++
      (bucketModels allModels vram bandwidth minContextK minTokPerSec
        requiredFeatures sortBy systemRamGB).tight ++
      (bucketModels allModels vram bandwidth minContextK minTokPerSec
        requiredFeatures sortBy systemRamGB).noFit).Perm
      (allModels.map (enrichModel vram bandwidth minContextK minTokPerSec
        requiredFeatures sortBy systemRamGB)) := by
    simp only [bucketModels]
    split_ifs <;> dsimp only <;>
      exact (((List.mergeSort_perm _ _).append (List.mergeSort_perm _ _)).append
        (List.mergeSort_perm _ _)).trans (splitBuckets_perm _)
  refine ⟨hperm, ?_⟩
  have hlen := hperm.length_eq
  simp only [List.length_append, List.length_map] at hlen
  omega

/-- C5: in `bucketModels`, a model whose `max_context_k` is below the
requested minimum context always lands in the `noFit` bucket, whatever
the other arguments are. -/
theorem bucketModels_minCtx_noFit (allModels : List Model) (vram : ℚ)
    (bandwidth minTokPerSec : Option ℚ) (requiredFeatures : List String)
    (sortBy : String) (systemRamGB : Option ℚ) (mc : ℚ) (m : Model)
    (hm : m ∈ allModels) (hlt : m.max_context_k < mc) :
    enrichModel vram bandwidth (some mc) minTokPerSec requiredFeatures sortBy
        systemRamGB m ∈
      (bucketModels allModels vram bandwidth (some mc) minTokPerSec
        requiredFeatures sortBy systemRamGB).noFit := by
  rw [mem_bucketModels_noFit]
  refine ⟨List.mem_map_of_mem _ hm, ?_⟩
  have hms : (enrichModel vram bandwidth (some mc) minTokPerSec requiredFeatures
      sortBy systemRamGB m).modelSupportsCtx = decide (m.max_context_k ≥ mc) := rfl
  simp [noFitCond, hms, not_le.mpr hlt]

/-- Witness for `bucketModels_minCtx_noFit`: the medium model with a
requested minimum context of 256K (above its 128K maximum). -/
theorem bucketModels_minCtx_noFit_witness :
    mediumModel ∈ [mediumModel] ∧ mediumModel.max_context_k < 256 ∧
    enrichModel 24 none (some 256) none [] "mmlu" none mediumModel ∈
      (bucketModels [mediumModel] 24 none (some 256) none [] "mmlu" none).noFit :=
  ⟨List.mem_singleton.mpr rfl, by norm_num [mediumModel],
   bucketModels_minCtx_noFit [mediumModel] 24 none none [] "mmlu" none 256
     mediumModel (List.mem_singleton.mpr rfl) (by norm_num [mediumModel])⟩

/-- C6: in `bucketModels`, a model that received an active offload plan
(feasible with nonzero offload ratio) never appears in `fits`: whenever
its enriched entry is not in `noFit`, it is in `tight`. -/
theorem bucketModels_offload_never_fits (allModels : List Model) (vram : ℚ)
    (bandwidth minContextK minTokPerSec : Option ℚ)
    (requiredFeatures : List String) (sortBy : String) (systemRamGB : Option ℚ)
    (m : Model) (hm : m ∈ allModels)
    (hoff : (enrichModel vram bandwidth minContextK minTokPerSec requiredFeatures
        sortBy systemRamGB m).offloadInfo.isSome = true) :
    (enrichModel vram bandwidth minContextK minTokPerSec requiredFeatures sortBy
        systemRamGB m) ∉
      (bucketModels allModels vram bandwidth minContextK minTokPerSec
        requiredFeatures sortBy systemRamGB).fits ∧
    ((enrichModel vram bandwidth minContextK minTokPerSec requiredFeatures sortBy
        systemRamGB m) ∉
      (bucketModels allModels vram bandwidth minContextK minTokPerSec
        requiredFeatures sortBy systemRamGB).noFit →
     (enrichModel vram bandwidth minContextK minTokPerSec requiredFeatures sortBy
        systemRamGB m) ∈
      (bucketModels allModels vram bandwidth minContextK minTokPerSec
        requiredFeatures sortBy systemRamGB).tight) := by
  constructor
  · intro hmem
    rw [mem_bucketModels_fits] at hmem
    rcases hmem with ⟨-, -, ht⟩
    simp [tightCond, hoff] at ht
  · intro hno
    rw [mem_bucketModels_noFit] at hno
    rw [mem_bucketModels_tight]
    have hmem := List.mem_map_of_mem (enrichModel vram bandwidth minContextK
      minTokPerSec requiredFeatures sortBy systemRamGB) hm
    have hnf : noFitCond (enrichModel vram bandwidth minContextK minTokPerSec
        requiredFeatures sortBy systemRamGB m) = false := by
      by_contra h
      exact hno ⟨hmem, by simpa using h⟩
    exact ⟨hmem, hnf, by simp [tightCond, hoff]⟩

namespace WhatModels

/-- A feasible offload plan with nonzero ratio fixes the GPU weight
share at `max (vram - overhead) 0`. -/
theorem calcOffloadConfig_gpuWeight {m : Model} {vram : ℚ} {sr : Option ℚ}
    {g r ratio lay : ℚ}
    (h : calcOffloadConfig m vram sr = .feasible g r ratio lay)
    (hr : 0 < ratio) :
    g = max (vram - INFERENCE_OVERHEAD_GB) 0 := by
  simp only [calcOffloadConfig] at h
  split_ifs at h with h1
  · simp only [OffloadConfig.feasible.injEq] at h
    rw [← h.2.2.1] at hr
    exact absurd hr (lt_irrefl 0)
  · cases sr with
    | none => simp at h
    | some ram =>
      simp only at h
      split_ifs at h with h2
      simp only [OffloadConfig.feasible.injEq] at h
      exact h.1.symm

/-- The `offloadInfo` field computed by `enrichModel`. -/
theorem enrichModel_offloadInfo (vram : ℚ)
    (bandwidth minContextK minTokPerSec : Option ℚ)
    (requiredFeatures : List String) (sortBy : String) (systemRamGB : Option ℚ)
    (m : Model) :
    (enrichModel vram bandwidth minContextK minTokPerSec requiredFeatures sortBy
        systemRamGB m).offloadInfo =
      computeOffloadInfo m vram bandwidth systemRamGB
        (decide (vram ≥ m.weight_gb + m.kv_per_1k_gb)) := rfl

/-- The `maxCtxK` field computed by `enrichModel`. -/
theorem enrichModel_maxCtxK (vram : ℚ)
    (bandwidth minContextK minTokPerSec : Option ℚ)
    (requiredFeatures : List String) (sortBy : String) (systemRamGB : Option ℚ)
    (m : Model) :
    (enrichModel vram bandwidth minContextK minTokPerSec requiredFeatures sortBy
        systemRamGB m).maxCtxK =
      (computeCtx m vram systemRamGB
        ((decide (vram ≥ m.weight_gb + m.kv_per_1k_gb)) ||
          (computeOffloadInfo m vram bandwidth systemRamGB
            (decide (vram ≥ m.weight_gb + m.kv_per_1k_gb))).isSome)
        (computeOffloadInfo m vram bandwidth systemRamGB
          (decide (vram ≥ m.weight_gb + m.kv_per_1k_gb)))).1 := rfl

/-- An attached offload record always carries
`gpuWeightGB = max (vram - overhead) 0`. -/
theorem computeOffloadInfo_gpuWeight {m : Model} {vram : ℚ}
    {bandwidth systemRamGB : Option ℚ} {fits : Bool} {oi : OffloadInfo}
    (h : computeOffloadInfo m vram bandwidth systemRamGB fits = some oi) :
    oi.gpuWeightGB = max (vram - INFERENCE_OVERHEAD_GB) 0 := by
  unfold computeOffloadInfo at h
  split_ifs at h with h1
  rcases hcfg : calcOffloadConfig m vram systemRamGB with _ | ⟨g, r, ratio, lay⟩
  · rw [hcfg] at h; simp at h
  · rw [hcfg] at h
    simp only at h
    split_ifs at h with hratio
    simp only [Option.some.injEq] at h
    rw [← h]
    exact calcOffloadConfig_gpuWeight hcfg hratio

end WhatModels

/-- C9: whenever `bucketModels` attaches an active offload plan to a
model with positive `kv_per_1k_gb` (and a nonnegative context cap, per
the data-model invariant `max_context_k > 0`), the enriched entry's
`maxCtxK` is exactly 0: the plan leaves no VRAM for the KV cache. -/
theorem bucketModels_offload_ctx_zero (vram : ℚ)
    (bandwidth minContextK minTokPerSec : Option ℚ)
    (requiredFeatures : List String) (sortBy : String) (systemRamGB : Option ℚ)
    (m : Model) (hk : 0 < m.kv_per_1k_gb) (hc : 0 ≤ m.max_context_k)
    (hoff : (enrichModel vram bandwidth minContextK minTokPerSec requiredFeatures
        sortBy systemRamGB m).offloadInfo.isSome = true) :
    (enrichModel vram bandwidth minContextK minTokPerSec requiredFeatures sortBy
        systemRamGB m).maxCtxK = 0 := by
  rcases ho : (enrichModel vram bandwidth minContextK minTokPerSec
      requiredFeatures sortBy systemRamGB m).offloadInfo with _ | oi
  · rw [ho] at hoff; simp at hoff
  · have ho' := ho
    rw [enrichModel_offloadInfo] at ho'
    have hgW : oi.gpuWeightGB = max (vram - INFERENCE_OVERHEAD_GB) 0 :=
      computeOffloadInfo_gpuWeight ho'
    rw [enrichModel_maxCtxK, ho']
    have hov : INFERENCE_OVERHEAD_GB = 1 := by norm_num [INFERENCE_OVERHEAD_GB]
    have hzero : max (vram - oi.gpuWeightGB - INFERENCE_OVERHEAD_GB) 0 = 0 := by
      rw [hgW, hov]
      rcases le_total (vram - 1) 0 with h | h
      · rw [max_eq_right h]
        exact max_eq_right (by linarith)
      · rw [max_eq_left h]
        exact max_eq_right (by linarith)
    simp only [computeCtx, Option.isNone_some, Bool.and_false, Bool.false_and]
    simp only [hzero, if_pos hk, zero_div, Int.floor_zero, Int.cast_zero]
    exact min_eq_left hc

namespace WhatModels

/-- Concrete offload plan: the medium model on an 8 GB GPU with 32 GB
of system RAM gets a feasible split with ratio `1.99/8.99`. -/
theorem calcOffloadConfig_example :
    calcOffloadConfig mediumModel 8 (some 32) =
      .feasible 7 1.99 (1.99/8.99) 0 := by
  simp only [calcOffloadConfig]
  norm_num [mediumModel, INFERENCE_OVERHEAD_GB, MAX_OFFLOAD_RATIO, jsRound]

/-- Concretely, `bucketModels` attaches an active offload plan to the
medium model at vram 8, bandwidth 504, system RAM 32. -/
theorem offloadActive_example :
    (enrichModel 8 (some 504) none none [] "mmlu" (some 32)
      mediumModel).offloadInfo.isSome = true := by
  rw [enrichModel_offloadInfo]
  have h1 : decide ((8:ℚ) ≥ mediumModel.weight_gb + mediumModel.kv_per_1k_gb)
      = false := by
    simp only [mediumModel, decide_eq_false_iff_not, not_le, ge_iff_le]
    norm_num
  rw [h1]
  simp only [computeOffloadInfo, Bool.not_false, Option.isSome_some,
    Bool.and_true, if_true, calcOffloadConfig_example]
  rw [if_pos (show (0:ℚ) < 1.99/8.99 by norm_num)]
  rfl

end WhatModels

/-- Witness for `bucketModels_offload_never_fits` at the medium model,
vram 8, bandwidth 504, system RAM 32. -/
theorem bucketModels_offload_never_fits_witness :
    mediumModel ∈ [mediumModel] ∧
    (enrichModel 8 (some 504) none none [] "mmlu" (some 32)
      mediumModel).offloadInfo.isSome = true ∧
    (enrichModel 8 (some 504) none none [] "mmlu" (some 32) mediumModel) ∉
      (bucketModels [mediumModel] 8 (some 504) none none [] "mmlu"
        (some 32)).fits :=
  ⟨List.mem_singleton.mpr rfl, offloadActive_example,
   (bucketModels_offload_never_fits [mediumModel] 8 (some 504) none none []
     "mmlu" (some 32) mediumModel (List.mem_singleton.mpr rfl)
     offloadActive_example).1⟩

/-- Witness for `bucketModels_offload_ctx_zero` at the medium model,
vram 8, bandwidth 504, system RAM 32. -/
theorem bucketModels_offload_ctx_zero_witness :
    0 < mediumModel.kv_per_1k_gb ∧ 0 ≤ mediumModel.max_context_k ∧
    (enrichModel 8 (some 504) none none [] "mmlu" (some 32)
      mediumModel).offloadInfo.isSome = true ∧
    (enrichModel 8 (some 504) none none [] "mmlu" (some 32)
      mediumModel).maxCtxK = 0 :=
  ⟨by norm_num [mediumModel], by norm_num [mediumModel], offloadActive_example,
   bucketModels_offload_ctx_zero 8 (some 504) none none [] "mmlu" (some 32)
     mediumModel (by norm_num [mediumModel]) (by norm_num [mediumModel])
     offloadActive_example⟩

namespace WhatModels

/-- First-occurrence deduplication of a list of names, relative to an
already-seen prefix. -/
def dedupFirstAux : List String → List String → List String
  | _, [] => []
  | seen, x :: xs =>
    if x ∈ seen then dedupFirstAux seen xs
    else x :: dedupFirstAux (seen ++ [x]) xs

/-- First-occurrence deduplication of a list of names. -/
def dedupFirst (l : List String) : List String := dedupFirstAux [] l

/-- All variant entries of a list of groups, in order. -/
def allVariants (gs : List Group) : List Entry :=
  (gs.map (fun g => g.variants)).flatten

/-- `pushVariant` leaves the group names unchanged when the name was
seen, and appends the new name otherwise. -/
theorem pushVariant_names (gs : List Group) (e : Entry) :
    (pushVariant gs e).map (fun g => g.name) =
      if e.model.name ∈ gs.map (fun g => g.name) then
        gs.map (fun g => g.name)
      else gs.map (fun g => g.name) ++ [e.model.name] := by
  unfold pushVariant
  by_cases h : e.model.name ∈ gs.map (fun g => g.name)
  · have hany : (gs.any (fun g => decide (g.name = e.model.name))) = true := by
      rw [List.any_eq_true]
      rcases List.mem_map.mp h with ⟨g, hg, hname⟩
      exact ⟨g, hg, by simp [hname]⟩
    rw [if_pos hany, if_pos h, List.map_map]
    refine List.map_congr_left ?_
    intro g _
    by_cases hg : g.name = e.model.name <;> simp [hg]
  · have hany : (gs.any (fun g => decide (g.name = e.model.name))) = false := by
      rw [Bool.eq_false_iff]
      intro hcon
      rw [List.any_eq_true] at hcon
      rcases hcon with ⟨g, hg, hname⟩
      simp only [decide_eq_true_eq] at hname
      exact h (List.mem_map.mpr ⟨g, hg, hname⟩)
    rw [if_neg (by simp [hany]), if_neg h, List.map_append]
    rfl

/-- `pushVariant` preserves distinctness of group names. -/
theorem pushVariant_names_nodup {gs : List Group} {e : Entry}
    (h : (gs.map (fun g => g.name)).Nodup) :
    ((pushVariant gs e).map (fun g => g.name)).Nodup := by
  rw [pushVariant_names]
  split_ifs with hmem
  · exact h
  · rw [List.nodup_append]
    refine ⟨h, List.nodup_singleton _, ?_⟩
    intro a ha hb
    rw [List.mem_singleton] at hb
    exact hmem (hb ▸ ha)

end WhatModels

namespace WhatModels

/-- Appending a variant to its (unique) existing group permutes the
variant pool to the old pool plus the new entry. -/
theorem map_update_allVariants (e : Entry) (gs : List Group) :
    (gs.map (fun g => g.name)).Nodup →
    (gs.any (fun g => decide (g.name = e.model.name))) = true →
    (allVariants (gs.map (fun g =>
        if g.name = e.model.name then { g with variants := g.variants ++ [e] }
        else g))).Perm (allVariants gs ++ [e]) := by
  induction gs with
  | nil => intro _ h; simp at h
  | cons g rest ih =>
    intro hnd hany
    rw [List.map_cons, List.nodup_cons] at hnd
    obtain ⟨hgnotin, hndrest⟩ := hnd
    by_cases hg : g.name = e.model.name
    · have hrest : rest.map (fun g' =>
          if g'.name = e.model.name then { g' with variants := g'.variants ++ [e] }
          else g') = rest := by
        have hcong : ∀ g' ∈ rest, (if g'.name = e.model.name
            then { g' with variants := g'.variants ++ [e] } else g') = id g' := by
          intro g' hg'
          rw [id_eq, if_neg]
          intro hcon
          exact hgnotin (List.mem_map.mpr ⟨g', hg', by rw [hcon, ← hg]⟩)
        rw [List.map_congr_left hcong, List.map_id]
      simp only [List.map_cons, if_pos hg, hrest, allVariants,
        List.flatten_cons]
      rw [List.append_assoc, List.append_assoc]
      exact List.Perm.append_left _ List.perm_append_comm
    · have hanyrest : (rest.any (fun g' => decide (g'.name = e.model.name)))
          = true := by
        rw [List.any_cons] at hany
        rcases (Bool.or_eq_true _ _).mp hany with h | h
        · exact absurd (of_decide_eq_true h) hg
        · exact h
      simp only [List.map_cons, if_neg hg, allVariants, List.flatten_cons]
      rw [List.append_assoc]
      exact List.Perm.append_left _ (ih hndrest hanyrest)

/-- `pushVariant` adds exactly the pushed entry to the variant pool. -/
theorem pushVariant_allVariants (e : Entry) (gs : List Group)
    (hnd : (gs.map (fun g => g.name)).Nodup) :
    (allVariants (pushVariant gs e)).Perm (allVariants gs ++ [e]) := by
  unfold pushVariant
  split_ifs with hany
  · exact map_update_allVariants e gs hnd hany
  · have hq : allVariants (gs ++ [newGroup e]) = allVariants gs ++ [e] := by
      simp [allVariants, newGroup]
    rw [hq]

/-- Folding `pushVariant` accumulates exactly the input entries. -/
theorem foldl_pushVariant_allVariants (l : List Entry) :
    ∀ (gs : List Group), (gs.map (fun g => g.name)).Nodup →
      (allVariants (l.foldl pushVariant gs)).Perm (allVariants gs ++ l) := by
  induction l with
  | nil => intro gs _; simp
  | cons e l ih =>
    intro gs hnd
    rw [List.foldl_cons]
    refine (ih _ (pushVariant_names_nodup hnd)).trans ?_
    have hstep := (pushVariant_allVariants e gs hnd).append_right l
    rw [List.append_assoc, List.singleton_append] at hstep
    exact hstep

end WhatModels

namespace WhatModels

/-- Folding `pushVariant` produces group names in first-appearance
order. -/
theorem foldl_pushVariant_names (l : List Entry) :
    ∀ (gs : List Group),
      (l.foldl pushVariant gs).map (fun g => g.name) =
        gs.map (fun g => g.name) ++
          dedupFirstAux (gs.map (fun g => g.name))
            (l.map (fun e => e.model.name)) := by
  induction l with
  | nil => intro gs; simp [dedupFirstAux]
  | cons e l ih =>
    intro gs
    rw [List.foldl_cons, List.map_cons, ih, pushVariant_names, dedupFirstAux]
    by_cases h : e.model.name ∈ gs.map (fun g => g.name)
    · rw [if_pos h, if_pos h]
    · rw [if_neg h, if_neg h, List.append_assoc, List.singleton_append]

/-- Metadata invariant for `pushVariant` folds: every group either
descends from the accumulator (same name and shared metadata) or was
created from the first entry of its name in the remaining input. -/
theorem foldl_pushVariant_meta (l : List Entry) :
    ∀ (gs : List Group), ∀ g ∈ l.foldl pushVariant gs,
      (∃ g₀ ∈ gs, g.name = g₀.name ∧ g.params_b = g₀.params_b ∧
        g.tier = g₀.tier ∧ g.mmlu_score = g₀.mmlu_score ∧
        g.swe_bench_score = g₀.swe_bench_score ∧ g.features = g₀.features) ∨
      (g.name ∉ gs.map (fun g' => g'.name) ∧
       ∃ e, l.find? (fun x => decide (x.model.name = g.name)) = some e ∧
        g.params_b = e.model.params_b ∧ g.tier = e.tier ∧
        g.mmlu_score = e.model.mmlu_score ∧
        g.swe_bench_score = e.model.swe_bench_score ∧
        g.features = e.model.features.getD []) := by
  induction l with
  | nil =>
    intro gs g hg
    exact Or.inl ⟨g, hg, rfl, rfl, rfl, rfl, rfl, rfl⟩
  | cons e l ih =>
    intro gs g hg
    rw [List.foldl_cons] at hg
    rcases ih (pushVariant gs e) g hg with ⟨g₀, hg₀, hmeta⟩ | ⟨hnotin, e', hfind, hmeta⟩
    · -- g descends from pushVariant gs e
      unfold pushVariant at hg₀
      split_ifs at hg₀ with hany
      · -- update case: g₀ is an updated member of gs
        rcases List.mem_map.mp hg₀ with ⟨g₁, hg₁, hupd⟩
        refine Or.inl ⟨g₁, hg₁, ?_⟩
        have : g₀.name = g₁.name ∧ g₀.params_b = g₁.params_b ∧
            g₀.tier = g₁.tier ∧ g₀.mmlu_score = g₁.mmlu_score ∧
            g₀.swe_bench_score = g₁.swe_bench_score ∧
            g₀.features = g₁.features := by
          rw [← hupd]
          by_cases hname : g₁.name = e.model.name <;>
            simp [hname]
        obtain ⟨h1, h2, h3, h4, h5, h6⟩ := this
        obtain ⟨m1, m2, m3, m4, m5, m6⟩ := hmeta
        exact ⟨m1.trans h1, m2.trans h2, m3.trans h3, m4.trans h4,
          m5.trans h5, m6.trans h6⟩
      · -- append case: g₀ ∈ gs or g₀ is the fresh group of e
        rcases List.mem_append.mp hg₀ with hin | hnew
        · exact Or.inl ⟨g₀, hin, hmeta⟩
        · rw [List.mem_singleton] at hnew
          subst hnew
          obtain ⟨m1, m2, m3, m4, m5, m6⟩ := hmeta
          refine Or.inr ⟨?_, e, ?_, ?_⟩
          · -- g.name = e.model.name is not among gs names
            rw [m1]
            show (newGroup e).name ∉ _
            intro hcon
            have : (gs.any (fun g' => decide (g'.name = e.model.name)))
                = true := by
              rw [List.any_eq_true]
              rcases List.mem_map.mp hcon with ⟨g₂, hg₂, hname⟩
              exact ⟨g₂, hg₂, by simp [hname, newGroup]⟩
            exact hany this
          · rw [List.find?_cons]
            have : decide (e.model.name = g.name) = true := by
              simp [m1, newGroup]
            rw [this]
          · exact ⟨m2, m3, m4, m5, m6⟩
    · -- g was created later in l
      have hne : e.model.name ≠ g.name := by
        intro hcon
        apply hnotin
        unfold pushVariant
        split_ifs with hany
        · rw [List.map_map]
          have : gs.map ((fun g' => g'.name) ∘ (fun g' =>
              if g'.name = e.model.name
              then { g' with variants := g'.variants ++ [e] } else g')) =
              gs.map (fun g' => g'.name) := by
            refine List.map_congr_left ?_
            intro g' _
            by_cases hn : g'.name = e.model.name <;> simp [hn]
          rw [this]
          rw [List.any_eq_true] at hany
          rcases hany with ⟨g₂, hg₂, hname⟩
          rw [← hcon]
          exact List.mem_map.mpr ⟨g₂, hg₂, of_decide_eq_true hname⟩
        · rw [List.map_append, ← hcon]
          exact List.mem_append.mpr (Or.inr (by simp [newGroup]))
      have hgsnames : g.name ∉ gs.map (fun g' => g'.name) := by
        intro hcon
        apply hnotin
        unfold pushVariant
        split_ifs with hany
        · rw [List.map_map]
          have : gs.map ((fun g' => g'.name) ∘ (fun g' =>
              if g'.name = e.model.name
              then { g' with variants := g'.variants ++ [e] } else g')) =
              gs.map (fun g' => g'.name) := by
            refine List.map_congr_left ?_
            intro g' _
            by_cases hn : g'.name = e.model.name <;> simp [hn]
          rw [this]
          exact hcon
        · rw [List.map_append]
          exact List.mem_append.mpr (Or.inl hcon)
      refine Or.inr ⟨hgsnames, e', ?_, hmeta⟩
      rw [List.find?_cons]
      have : decide (e.model.name = g.name) = false := by
        simp [hne]
      rw [this]
      exact hfind

end WhatModels

namespace WhatModels

/-- Sorting each group's variants permutes the variant pool. -/
theorem allVariants_sort_perm (gs : List Group) :
    (allVariants (gs.map (fun g =>
      { g with variants := g.variants.mergeSort weightLE }))).Perm
      (allVariants gs) := by
  induction gs with
  | nil => exact List.Perm.refl _
  | cons g rest ih =>
    dsimp only [allVariants, List.map_cons, List.flatten_cons] at ih ⊢
    exact (List.mergeSort_perm _ _).append ih

end WhatModels

/-- C8: `groupVariants` produces groups in first-appearance order of
the model names, never drops or duplicates an input entry (the variant
pool is a permutation of the input, so variant counts sum to the input
length), takes each group's shared metadata from the first-seen variant
of its name, and sorts each group's variants by ascending weight. -/
theorem groupVariants_spec (l : List Entry) :
    (groupVariants l).map (fun g => g.name) =
      dedupFirst (l.map (fun e => e.model.name)) ∧
    (((groupVariants l).map (fun g => g.variants)).flatten).Perm l ∧
    ((groupVariants l).map (fun g => g.variants.length)).sum = l.length ∧
    (∀ g ∈ groupVariants l,
      ∃ e, l.find? (fun x => decide (x.model.name = g.name)) = some e ∧
        g.params_b = e.model.params_b ∧ g.tier = e.tier ∧
        g.mmlu_score = e.model.mmlu_score ∧
        g.swe_bench_score = e.model.swe_bench_score ∧
        g.features = e.model.features.getD []) ∧
    (∀ g ∈ groupVariants l,
      g.variants.Pairwise
        (fun a b => a.model.weight_gb ≤ b.model.weight_gb)) := by
  have hnodup0 : (([] : List Group).map (fun g => g.name)).Nodup := by simp
  have hperm : (((groupVariants l).map (fun g => g.variants)).flatten).Perm l := by
    show (allVariants (groupVariants l)).Perm l
    unfold groupVariants
    refine (allVariants_sort_perm _).trans ?_
    have h := foldl_pushVariant_allVariants l [] hnodup0
    simpa [allVariants] using h
  refine ⟨?_, hperm, ?_, ?_, ?_⟩
  · unfold groupVariants dedupFirst
    rw [List.map_map]
    have hpres : (l.foldl pushVariant []).map ((fun g => g.name) ∘ (fun g =>
        { g with variants := g.variants.mergeSort weightLE })) =
        (l.foldl pushVariant []).map (fun g => g.name) := by
      refine List.map_congr_left ?_
      intro g _
      rfl
    rw [hpres, foldl_pushVariant_names l []]
    simp
  · have hlen := hperm.length_eq
    rw [List.length_flatten, List.map_map] at hlen
    exact hlen
  · intro g hg
    unfold groupVariants at hg
    rcases List.mem_map.mp hg with ⟨g₁, hg₁, hsort⟩
    rcases foldl_pushVariant_meta l [] g₁ hg₁ with ⟨g₀, hg₀, -⟩ | ⟨-, e, hfind, hmeta⟩
    · exact absurd hg₀ (List.not_mem_nil g₀)
    · subst hsort
      exact ⟨e, by simpa using hfind, by simpa using hmeta⟩
  · intro g hg
    unfold groupVariants at hg
    rcases List.mem_map.mp hg with ⟨g₁, hg₁, hsort⟩
    subst hsort
    have htrans : ∀ a b c : Entry, weightLE a b = true → weightLE b c = true →
        weightLE a c = true := by
      intro a b c hab hbc
      simp only [weightLE, decide_eq_true_eq] at hab hbc ⊢
      exact le_trans hab hbc
    have htotal : ∀ a b : Entry, (weightLE a b || weightLE b a) = true := by
      intro a b
      simp only [weightLE, Bool.or_eq_true, decide_eq_true_eq]
      exact le_total _ _
    have hsorted := List.sorted_mergeSort htrans htotal g₁.variants
    exact hsorted.imp (fun h => by
      simpa only [weightLE, decide_eq_true_eq] using h)
